import Mathlib

set_option maxHeartbeats 1000000
set_option autoImplicit false

/-!
Verification development for the beaver-routes request-composition core.

The definitions below are a shallow embedding of the Python source:
`src/beaver_routes/core/route.py` (merge engine, scenario resolution,
after-hook registry, request-argument validation),
`src/beaver_routes/core/attribute_dictionary.py` (the nested attribute
container) and `src/beaver_routes/core/constants.py` (the allow-lists).
Python dictionaries are modelled as insertion-ordered association lists;
exceptions are modelled by an `Err` inductive whose constructors correspond
one-to-one to the distinct raise sites of the source, carrying the data that
the source interpolates into the exception message.
-/

namespace BeaverRoutes

/-- Python values occurring in request fragments: strings, integers, `None`,
plain dictionaries (insertion-ordered association lists) and
`AttributeDictionary` instances (their `_data` mapping). -/
inductive Val where
  | str (s : String)
  | int (n : Int)
  | pyNone
  | dict (entries : List (String × Val))
  | attr (data : List (String × Val))

/-- Heap-model values: primitives, or a reference to a dictionary cell in the
heap.  Used by the mutation model of `_merge_request_args`. -/
inductive HVal where
  | str (s : String)
  | int (n : Int)
  | pyNone
  | ref (a : Nat)
deriving Repr, DecidableEq

/-- Errors raised by the embedded code.  Each constructor corresponds to one
raise site in the source; the payload is the data interpolated into the
exception message there. -/
inductive Err where
  /-- `AttributeDictionary.to_dict` raises `AttributeError` on keys
  `items`/`keys`. -/
  | reservedKey
  /-- `_merge_request_args` raises `ValueError` naming the offending strategy
  value and the list of valid strategies. -/
  | invalidMergeStrategy (strategy : Val) (valid : List String)
  /-- `_invoke_with_arg_dict_conditionally` raises `TypeError` when the route
  method declares more than one parameter. -/
  | tooManyArguments (arity : Nat)
  /-- `_get_scenario_group` raises `AttributeError` when `scenario_groups` is
  falsy (missing or empty). -/
  | noScenarioGroupsConfigured
  /-- `_get_scenario_group` raises `KeyError` when the group lookup yields a
  falsy result. -/
  | unknownScenarioGroup (group : String)
  /-- `_get_scenario_group` raises `TypeError` when the entry is not a class
  type. -/
  | invalidScenarioGroupType (group : String)
  /-- `for_scenario` raises `AttributeError` when the scenario method cannot
  be found or is not callable. -/
  | scenarioNotFound (scenario : String)
  /-- `set_after_hooks` raises `KeyError` on an invalid scope. -/
  | invalidHookScope (scope : String)
  /-- `set_after_hooks` raises `TypeError` on a non-callable hook. -/
  | hookNotCallable
  /-- `get_parsed_request_args` raises `AttributeError` when neither a `url`
  key nor an endpoint is available. -/
  | missingEndpoint
  /-- `get_parsed_request_args` raises `KeyError` naming the invalid keys and
  the method. -/
  | invalidRequestArguments (invalidKeys : List String) (method : String)
  /-- Indexing `ALLOWED_METHOD_PARAMS` with an unknown method raises
  `KeyError`. -/
  | unknownMethod (method : String)
  /-- `str.format` raises `KeyError` on a placeholder with no substitution. -/
  | missingPlaceholder (name : String)
  /-- `str.format` raises `ValueError` on a malformed template. -/
  | formatError
  /-- Iterating `.items()` of a non-mapping raises `AttributeError`. -/
  | notADict
  /-- Heap-model variant of the invalid-merge-strategy error. -/
  | invalidMergeStrategyH (strategy : HVal) (valid : List String)
  /-- Out of fuel: the modelled recursion depth was exceeded (an artifact of
  the embedding, not a Python behaviour). -/
  | fuelExhausted

end BeaverRoutes

namespace BeaverRoutes

/-- First value bound to `key`, as Python `d.get(key)`. -/
def lookupKey? {α : Type} : List (String × α) → String → Option α
  | [], _ => none
  | (k, v) :: rest, key => if k = key then some v else lookupKey? rest key

/-- Python `key in d`. -/
def hasKey {α : Type} (d : List (String × α)) (key : String) : Bool :=
  (lookupKey? d key).isSome

/-- Python `d[key] = v`: update in place when the key is present (keeping its
position, as Python dictionaries do), otherwise append. -/
def setKey {α : Type} : List (String × α) → String → α → List (String × α)
  | [], key, v => [(key, v)]
  | (k, w) :: rest, key, v =>
    if k = key then (k, v) :: rest else (k, w) :: setKey rest key v

/-- Python `d.pop(key, default)` restricted to its removal effect. -/
def removeKey {α : Type} (d : List (String × α)) (key : String) :
    List (String × α) :=
  d.filter (fun kv => kv.1 ≠ key)

/-- The reserved merge-directive key. -/
def mergeStrategyKey : String := "_merge_strategy"

/-- Python `v == s` for a string literal `s`: true only when `v` is that
string. -/
def isStrVal (v : Val) (s : String) : Bool :=
  match v with
  | .str t => t = s
  | _ => false

end BeaverRoutes

namespace BeaverRoutes

/-- Model of `AttributeDictionary.to_dict`: recursively unwraps nested
containers, raising on the reserved keys `items`/`keys` when they are reached.
The argument is the `_data` association list of the container. -/
def toDictE : List (String × Val) → Except Err (List (String × Val))
  | [] => .ok []
  | (key, v) :: rest =>
    if key = "items" ∨ key = "keys" then .error .reservedKey
    else
      match v with
      | .attr m =>
        match toDictE m with
        | .error e => .error e
        | .ok w =>
          match toDictE rest with
          | .error e => .error e
          | .ok ws => .ok ((key, .dict w) :: ws)
      | _ =>
        match toDictE rest with
        | .error e => .error e
        | .ok ws => .ok ((key, v) :: ws)

/-- Whether the container data holds a reserved key at any level that
`to_dict`'s recursion reaches (nested `AttributeDictionary` values). -/
def hasReservedE : List (String × Val) → Bool
  | [] => false
  | (key, v) :: rest =>
    if key = "items" ∨ key = "keys" then true
    else
      (match v with
       | .attr m => hasReservedE m
       | _ => false) || hasReservedE rest

/-- The plain-mapping image of a container's data: every nested container
unwrapped to a plain dictionary (the successful result of `to_dict`). -/
def unwrapE : List (String × Val) → List (String × Val)
  | [] => []
  | (key, v) :: rest =>
    match v with
    | .attr m => (key, .dict (unwrapE m)) :: unwrapE rest
    | _ => (key, v) :: unwrapE rest

/-- Model of `AttributeDictionary.__getattr__`: reading `name` stores a fresh
empty container under `name` when it is absent, then returns the stored
value.  Returns the updated `_data` and the value read. -/
def getattrAD (data : List (String × Val)) (name : String) :
    List (String × Val) × Val :=
  match lookupKey? data name with
  | some v => (data, v)
  | none => (data ++ [(name, .attr [])], .attr [])

lemma toDictE_spec (m0 : List (String × Val)) :
    (hasReservedE m0 = true → toDictE m0 = .error .reservedKey) ∧
    (hasReservedE m0 = false → toDictE m0 = .ok (unwrapE m0)) := by
  induction m0 using toDictE.induct with
  | case1 => simp [toDictE, hasReservedE, unwrapE]
  | case2 key v rest hres => cases v <;> simp [toDictE, hasReservedE, hres]
  | case3 key rest hres m e hm ihm =>
    have hres1 : hasReservedE m = true := by
      cases hx : hasReservedE m with
      | true => rfl
      | false => rw [ihm.2 hx] at hm; cases hm
    have he : e = Err.reservedKey := by
      rw [ihm.1 hres1] at hm
      injection hm with h
      exact h.symm
    subst he
    simp [hasReservedE, toDictE, hres, hm, hres1]
  | case4 key rest hres m ws hm e hrest ihm ihrest =>
    have hres2 : hasReservedE rest = true := by
      cases hx : hasReservedE rest with
      | true => rfl
      | false => rw [ihrest.2 hx] at hrest; cases hrest
    have he : e = Err.reservedKey := by
      rw [ihrest.1 hres2] at hrest
      injection hrest with h
      exact h.symm
    subst he
    simp [hasReservedE, toDictE, hres, hm, hrest, hres2]
  | case5 key rest hres m ws hm ws2 hrest ihm ihrest =>
    have hm0 : hasReservedE m = false := by
      cases hx : hasReservedE m with
      | false => rfl
      | true => rw [ihm.1 hx] at hm; cases hm
    have hr0 : hasReservedE rest = false := by
      cases hx : hasReservedE rest with
      | false => rfl
      | true => rw [ihrest.1 hx] at hrest; cases hrest
    have hws : ws = unwrapE m := by
      rw [ihm.2 hm0] at hm
      injection hm with h
      exact h.symm
    have hws2 : ws2 = unwrapE rest := by
      rw [ihrest.2 hr0] at hrest
      injection hrest with h
      exact h.symm
    subst hws hws2
    simp [hasReservedE, toDictE, unwrapE, hres, hm, hrest, hm0, hr0]
  | case6 key v rest hres e hrest hnattr ihrest =>
    have hres2 : hasReservedE rest = true := by
      cases hx : hasReservedE rest with
      | true => rfl
      | false => rw [ihrest.2 hx] at hrest; cases hrest
    have he : e = Err.reservedKey := by
      rw [ihrest.1 hres2] at hrest
      injection hrest with h
      exact h.symm
    subst he
    cases v with
    | attr m => exact absurd rfl (hnattr m)
    | str s => simp [hasReservedE, toDictE, hres, hrest, hres2]
    | int n => simp [hasReservedE, toDictE, hres, hrest, hres2]
    | pyNone => simp [hasReservedE, toDictE, hres, hrest, hres2]
    | dict d => simp [hasReservedE, toDictE, hres, hrest, hres2]
  | case7 key v rest hres ws hrest hnattr ihrest =>
    have hr0 : hasReservedE rest = false := by
      cases hx : hasReservedE rest with
      | false => rfl
      | true => rw [ihrest.1 hx] at hrest; cases hrest
    have hws : ws = unwrapE rest := by
      rw [ihrest.2 hr0] at hrest
      injection hrest with h
      exact h.symm
    subst hws
    cases v with
    | attr m => exact absurd rfl (hnattr m)
    | str s => simp [hasReservedE, toDictE, unwrapE, hres, hrest, hr0]
    | int n => simp [hasReservedE, toDictE, unwrapE, hres, hrest, hr0]
    | pyNone => simp [hasReservedE, toDictE, unwrapE, hres, hrest, hr0]
    | dict d => simp [hasReservedE, toDictE, unwrapE, hres, hrest, hr0]

lemma hasReservedE_append (a b : List (String × Val)) :
    hasReservedE (a ++ b) = (hasReservedE a || hasReservedE b) := by
  induction a with
  | nil => simp [hasReservedE]
  | cons kv rest ih =>
    obtain ⟨key, v⟩ := kv
    by_cases hres : key = "items" ∨ key = "keys"
    · cases v <;> simp [hasReservedE, hres]
    · cases v <;> simp [hasReservedE, hres, ih, Bool.or_assoc]

lemma unwrapE_append (a b : List (String × Val)) :
    unwrapE (a ++ b) = unwrapE a ++ unwrapE b := by
  induction a with
  | nil => simp [unwrapE]
  | cons kv rest ih =>
    obtain ⟨key, v⟩ := kv
    cases v <;> simp [unwrapE, ih]

/-- `constants.ALLOWED_COMMON_PARAMS`. -/
def ALLOWED_COMMON_PARAMS : List String :=
  ["url", "headers", "cookies", "auth", "timeout", "allow_redirects",
   "proxies", "verify", "stream", "cert"]

/-- `constants.ALLOWED_METHOD_PARAMS`. -/
def ALLOWED_METHOD_PARAMS : List (String × List String) :=
  [("GET", ["params"]),
   ("POST", ["data", "json", "files"]),
   ("PUT", ["data", "json", "files"]),
   ("DELETE", []),
   ("PATCH", ["data", "json", "files"]),
   ("OPTIONS", ["params"]),
   ("HEAD", ["params"])]

/-- `constants.VALID_HOOK_SCENARIOS`. -/
def VALID_HOOK_SCENARIOS : List String := ["route", "method", "scenario"]

/-- `constants.VALID_MERGE_STRATEGIES`. -/
def VALID_MERGE_STRATEGIES : List String := ["deep_merge", "replace", "remove"]

/-- Per-value conversion at the top of the merge loop body:
`if isinstance(value, AttributeDictionary): value = value.to_dict()`. -/
def convV : Val → Except Err Val
  | .attr m =>
    match toDictE m with
    | .error e => .error e
    | .ok d => .ok (.dict d)
  | v => .ok v

/-- Body of `BaseRoute._merge_request_args` for one fragment: folds the
fragment's entries (in insertion order) into the accumulated mapping `md`.
`fuel` bounds the amount of work (the Python recursion has no such bound;
every actual run is reproduced by a large enough fuel, and the only extra
outcome fuel introduces is the distinguished `fuelExhausted` error). -/
def mergeFrag : Nat → List (String × Val) → List (String × Val) →
    Except Err (List (String × Val))
  | _, md, [] => .ok md
  | 0, _, _ :: _ => .error .fuelExhausted
  | fuel + 1, md, (key, value0) :: rest =>
    match convV value0 with
    | .error e => .error e
    | .ok value =>
      match lookupKey? md key, value with
      | some (.dict mv), .dict vd =>
        -- key in merged_args, both values dictionaries
        let strat := (lookupKey? vd mergeStrategyKey).getD (.str "deep_merge")
        let vd2 := removeKey vd mergeStrategyKey
        if isStrVal strat "deep_merge" then
          -- merged_args[key] = self._merge_request_args(merged_args[key], value)
          match mergeFrag fuel [] mv with
          | .error e => .error e
          | .ok m1 =>
            match mergeFrag fuel m1 vd2 with
            | .error e => .error e
            | .ok m2 => mergeFrag fuel (setKey md key (.dict m2)) rest
        else if isStrVal strat "replace" then
          mergeFrag fuel (setKey md key (.dict vd2)) rest
        else if isStrVal strat "remove" then
          mergeFrag fuel (removeKey md key) rest
        else
          .error (.invalidMergeStrategy strat VALID_MERGE_STRATEGIES)
      | _, _ =>
        if key = mergeStrategyKey then
          mergeFrag fuel md rest
        else
          match value with
          | .dict vd =>
            mergeFrag fuel (setKey md key (.dict (removeKey vd mergeStrategyKey)))
              rest
          | v => mergeFrag fuel (setKey md key v) rest

/-- Outer loop of `BaseRoute._merge_request_args`: each fragment is converted
from `AttributeDictionary` when needed, then folded into the accumulator. -/
def mergeArgsGo : Nat → List (String × Val) → List Val →
    Except Err (List (String × Val))
  | _, md, [] => .ok md
  | fuel, md, frag :: rest =>
    match (match frag with
           | .attr m => toDictE m
           | .dict d => .ok d
           | _ => .error .notADict) with
    | .error e => .error e
    | .ok d =>
      match mergeFrag fuel md d with
      | .error e => .error e
      | .ok md' => mergeArgsGo fuel md' rest

/-- `BaseRoute._merge_request_args(*request_args)`: merge an ordered list of
fragments (earlier = lower priority) into one mapping. -/
def mergeArgs (fuel : Nat) (frags : List Val) :
    Except Err (List (String × Val)) :=
  mergeArgsGo fuel [] frags

/-- A value is top-stripped when, if it is a dictionary, its own top level has
no `_merge_strategy` key. -/
def okTopVal : Val → Bool
  | .dict dv => !(hasKey dv mergeStrategyKey)
  | _ => true

/-- A mapping is top-stripped when its top level has no `_merge_strategy` key
and every dictionary value directly below it is top-stripped. -/
def strippedTop (d : List (String × Val)) : Bool :=
  !(hasKey d mergeStrategyKey) && d.all (fun kv => okTopVal kv.2)

/-- Does the mapping contain a `_merge_strategy` key at any depth (through
both plain dictionaries and attribute containers)? -/
def containsMSE : List (String × Val) → Bool
  | [] => false
  | (k, v) :: rest =>
    k = mergeStrategyKey ||
      (match v with
       | .dict m => containsMSE m
       | .attr m => containsMSE m
       | _ => false) ||
      containsMSE rest

lemma lookupKey?_removeKey_self {α : Type} (d : List (String × α)) (k : String) :
    lookupKey? (removeKey d k) k = none := by
  induction d with
  | nil => simp [removeKey, lookupKey?]
  | cons kv rest ih =>
    by_cases h : kv.1 = k
    · simpa [removeKey, h] using ih
    · simpa [removeKey, lookupKey?, h] using ih

lemma hasKey_removeKey_self {α : Type} (d : List (String × α)) (k : String) :
    hasKey (removeKey d k) k = false := by
  simp [hasKey, lookupKey?_removeKey_self]

lemma lookupKey?_removeKey_other {α : Type} (d : List (String × α))
    (k k' : String) (hne : k' ≠ k) :
    lookupKey? (removeKey d k) k' = lookupKey? d k' := by
  have hne2 : ¬ (k = k') := fun hx => hne hx.symm
  induction d with
  | nil => simp [removeKey]
  | cons kv rest ih =>
    obtain ⟨k0, v0⟩ := kv
    by_cases h : k0 = k
    · have h2 : ¬ k0 = k' := by
        intro hx; exact hne (hx ▸ h)
      simpa [removeKey, lookupKey?, h, h2, hne2] using ih
    · by_cases h3 : k0 = k'
      · simp [removeKey, lookupKey?, h, h3, hne]
      · simpa [removeKey, lookupKey?, h, h3] using ih

lemma all_removeKey {α : Type} (d : List (String × α)) (k : String)
    (p : String × α → Bool) (h : d.all p = true) :
    (removeKey d k).all p = true := by
  rw [List.all_eq_true] at h ⊢
  intro kv hkv
  exact h kv (List.mem_of_mem_filter hkv)

lemma lookupKey?_append {α : Type} (a b : List (String × α)) (k : String) :
    lookupKey? (a ++ b) k =
      (match lookupKey? a k with
       | some v => some v
       | none => lookupKey? b k) := by
  induction a with
  | nil => simp [lookupKey?]
  | cons kv rest ih =>
    obtain ⟨k0, v0⟩ := kv
    by_cases h : k0 = k
    · simp [lookupKey?, h]
    · simpa [lookupKey?, h] using ih

lemma lookupKey?_setKey_other {α : Type} (d : List (String × α))
    (k k' : String) (v : α) (hne : k' ≠ k) :
    lookupKey? (setKey d k v) k' = lookupKey? d k' := by
  have hne2 : ¬ (k = k') := fun hx => hne hx.symm
  induction d with
  | nil => simp [setKey, lookupKey?, hne2]
  | cons kv rest ih =>
    obtain ⟨k0, v0⟩ := kv
    by_cases h : k0 = k
    · have h2 : ¬ k0 = k' := by
        intro hx; exact hne (hx ▸ h)
      simp [setKey, lookupKey?, h, h2, hne2]
    · by_cases h3 : k0 = k'
      · simp [setKey, lookupKey?, h, h3, hne]
      · simpa [setKey, lookupKey?, h, h3] using ih

lemma hasKey_setKey_other {α : Type} (d : List (String × α))
    (k k' : String) (v : α) (hne : k' ≠ k) :
    hasKey (setKey d k v) k' = hasKey d k' := by
  simp [hasKey, lookupKey?_setKey_other, hne]

lemma all_setKey {α : Type} (d : List (String × α)) (k : String) (v : α)
    (p : String × α → Bool) (h : d.all p = true)
    (hv : ∀ k0 : String, p (k0, v) = true) :
    (setKey d k v).all p = true := by
  induction d with
  | nil => simpa [setKey] using hv k
  | cons kv rest ih =>
    obtain ⟨k0, v0⟩ := kv
    rw [List.all_cons, Bool.and_eq_true] at h
    by_cases h0 : k0 = k
    · simp only [setKey, h0, if_true, List.all_cons, Bool.and_eq_true]
      exact ⟨hv _, h.2⟩
    · simp only [setKey, h0, if_false, List.all_cons, Bool.and_eq_true]
      exact ⟨h.1, ih h.2⟩

lemma strippedTop_setKey (md : List (String × Val)) (key : String) (v : Val)
    (hmd : strippedTop md = true) (hkey : key ≠ mergeStrategyKey)
    (hv : okTopVal v = true) : strippedTop (setKey md key v) = true := by
  simp only [strippedTop, Bool.and_eq_true, Bool.not_eq_true'] at hmd ⊢
  refine ⟨?_, ?_⟩
  · rw [hasKey_setKey_other md key mergeStrategyKey v (Ne.symm hkey)]
    exact hmd.1
  · exact all_setKey md key v _ hmd.2 (fun _ => hv)

lemma strippedTop_removeKey (md : List (String × Val)) (key : String)
    (hmd : strippedTop md = true) : strippedTop (removeKey md key) = true := by
  simp only [strippedTop, Bool.and_eq_true, Bool.not_eq_true'] at hmd ⊢
  refine ⟨?_, all_removeKey md key _ hmd.2⟩
  by_cases h : mergeStrategyKey = key
  · rw [h]
    exact hasKey_removeKey_self md key
  · rw [hasKey, lookupKey?_removeKey_other md key mergeStrategyKey h]
    exact hmd.1

lemma hasKey_false_of_stripped_lookup (md : List (String × Val)) (key : String)
    (x : Val) (hmd : strippedTop md = true)
    (hl : lookupKey? md key = some x) : key ≠ mergeStrategyKey := by
  intro hk
  subst hk
  simp only [strippedTop, Bool.and_eq_true, Bool.not_eq_true'] at hmd
  rw [hasKey, hl] at hmd
  simp at hmd

lemma strippedTop_nil : strippedTop [] = true := by
  simp [strippedTop, hasKey, lookupKey?]

lemma okTopVal_of_stripped (d : List (String × Val))
    (h : strippedTop d = true) : okTopVal (.dict d) = true := by
  simp only [strippedTop, Bool.and_eq_true] at h
  simpa [okTopVal] using h.1

lemma okTopVal_removeKeyMS (vd : List (String × Val)) :
    okTopVal (.dict (removeKey vd mergeStrategyKey)) = true := by
  simp [okTopVal, hasKey_removeKey_self]

lemma okTopVal_nondict (v : Val)
    (h : ∀ vd : List (String × Val), v = .dict vd → False) :
    okTopVal v = true := by
  cases v with
  | dict vd => exact absurd rfl (h vd)
  | str s => rfl
  | int n => rfl
  | pyNone => rfl
  | attr m => rfl

/-- Invariant of the merge loop: folding a fragment into a top-stripped
accumulator yields a top-stripped result. -/
lemma mergeFrag_stripped (fuel : Nat) (md entries : List (String × Val)) :
    ∀ out, mergeFrag fuel md entries = .ok out → strippedTop md = true →
      strippedTop out = true := by
  induction fuel, md, entries using mergeFrag.induct with
  | case1 t md =>
    intro out h hmd
    simp only [mergeFrag] at h
    injection h with h
    exact h ▸ hmd
  | case2 x head tail =>
    intro out h _
    simp only [mergeFrag] at h
    cases h
  | case3 fuel md key value0 rest e hconv =>
    intro out h _
    simp [mergeFrag, hconv] at h
  | case4 fuel md key value0 rest mv vd hlook strat hdeep e herr hconv ih1 =>
    intro out h _
    have hd : isStrVal ((lookupKey? vd mergeStrategyKey).getD
        (Val.str "deep_merge")) "deep_merge" = true := hdeep
    simp [mergeFrag, hconv, hlook, hd, herr] at h
  | case5 fuel md key value0 rest mv vd hlook strat vd2 hdeep ws hok1 e herr2
      hconv ih1 ih2 =>
    intro out h _
    have hd : isStrVal ((lookupKey? vd mergeStrategyKey).getD
        (Val.str "deep_merge")) "deep_merge" = true := hdeep
    have he2 : mergeFrag fuel ws (removeKey vd mergeStrategyKey) =
        .error e := herr2
    simp [mergeFrag, hconv, hlook, hd, hok1, he2] at h
  | case6 fuel md key value0 rest mv vd hlook strat vd2 hdeep ws hok1 ws1 hok2
      hconv ih1 ih2 ih3 =>
    intro out h hmd
    have hd : isStrVal ((lookupKey? vd mergeStrategyKey).getD
        (Val.str "deep_merge")) "deep_merge" = true := hdeep
    have h2 : mergeFrag fuel ws (removeKey vd mergeStrategyKey) =
        .ok ws1 := hok2
    simp [mergeFrag, hconv, hlook, hd, hok1, h2] at h
    have hws : strippedTop ws = true := ih1 ws hok1 strippedTop_nil
    have hws1 : strippedTop ws1 = true := ih2 ws1 hok2 hws
    have hkey : key ≠ mergeStrategyKey :=
      hasKey_false_of_stripped_lookup md key _ hmd hlook
    exact ih3 out h
      (strippedTop_setKey md key _ hmd hkey (okTopVal_of_stripped ws1 hws1))
  | case7 fuel md key value0 rest mv vd hlook strat vd2 hndeep hrepl hconv ih =>
    intro out h hmd
    have hd : ¬ isStrVal ((lookupKey? vd mergeStrategyKey).getD
        (Val.str "deep_merge")) "deep_merge" = true := hndeep
    have hr : isStrVal ((lookupKey? vd mergeStrategyKey).getD
        (Val.str "deep_merge")) "replace" = true := hrepl
    simp [mergeFrag, hconv, hlook, hd, hr] at h
    have hkey : key ≠ mergeStrategyKey :=
      hasKey_false_of_stripped_lookup md key _ hmd hlook
    exact ih out h
      (strippedTop_setKey md key _ hmd hkey (okTopVal_removeKeyMS vd))
  | case8 fuel md key value0 rest mv vd hlook strat hndeep hnrepl hrem hconv ih =>
    intro out h hmd
    have hd : ¬ isStrVal ((lookupKey? vd mergeStrategyKey).getD
        (Val.str "deep_merge")) "deep_merge" = true := hndeep
    have hr : ¬ isStrVal ((lookupKey? vd mergeStrategyKey).getD
        (Val.str "deep_merge")) "replace" = true := hnrepl
    have hm : isStrVal ((lookupKey? vd mergeStrategyKey).getD
        (Val.str "deep_merge")) "remove" = true := hrem
    simp [mergeFrag, hconv, hlook, hd, hr, hm] at h
    exact ih out h (strippedTop_removeKey md key hmd)
  | case9 fuel md key value0 rest mv vd hlook strat hndeep hnrepl hnrem hconv =>
    intro out h _
    have hd : ¬ isStrVal ((lookupKey? vd mergeStrategyKey).getD
        (Val.str "deep_merge")) "deep_merge" = true := hndeep
    have hr : ¬ isStrVal ((lookupKey? vd mergeStrategyKey).getD
        (Val.str "deep_merge")) "replace" = true := hnrepl
    have hm : ¬ isStrVal ((lookupKey? vd mergeStrategyKey).getD
        (Val.str "deep_merge")) "remove" = true := hnrem
    simp [mergeFrag, hconv, hlook, hd, hr, hm] at h
  | case10 fuel md value0 rest value hconv hnb ih =>
    intro out h hmd
    simp [mergeFrag, hconv, hnb] at h
    exact ih out h hmd
  | case11 fuel md key value0 rest hkey vd hconv hnb ih =>
    intro out h hmd
    simp [mergeFrag, hconv, hkey, hnb] at h
    exact ih out h
      (strippedTop_setKey md key _ hmd hkey (okTopVal_removeKeyMS vd))
  | case12 fuel md key value0 rest hkey v hnd hconv hnb ih =>
    intro out h hmd
    simp [mergeFrag, hconv, hkey, hnb, hnd] at h
    exact ih out h (strippedTop_setKey md key _ hmd hkey (okTopVal_nondict v hnd))

lemma mergeArgsGo_stripped (fuel : Nat) (frags : List Val) :
    ∀ md out, mergeArgsGo fuel md frags = .ok out → strippedTop md = true →
      strippedTop out = true := by
  induction frags with
  | nil =>
    intro md out h hmd
    simp only [mergeArgsGo] at h
    injection h with h
    exact h ▸ hmd
  | cons frag rest ih =>
    intro md out h hmd
    simp only [mergeArgsGo] at h
    cases hc : (match frag with
                | Val.attr m => toDictE m
                | Val.dict d => Except.ok d
                | _ => Except.error Err.notADict) with
    | error e => rw [hc] at h; cases h
    | ok d =>
      rw [hc] at h
      have h2 : (match mergeFrag fuel md d with
                 | Except.error e => Except.error e
                 | Except.ok md' => mergeArgsGo fuel md' rest) =
          Except.ok out := h
      cases hm : mergeFrag fuel md d with
      | error e => rw [hm] at h2; cases h2
      | ok md' =>
        rw [hm] at h2
        exact ih md' out h2 (mergeFrag_stripped fuel md d md' hm hmd)

/-- The result of a successful merge has no `_merge_strategy` key at its top
level, and none at the top level of any of its dictionary values. -/
lemma mergeArgs_stripped (fuel : Nat) (frags : List Val)
    (out : List (String × Val)) (h : mergeArgs fuel frags = .ok out) :
    strippedTop out = true :=
  mergeArgsGo_stripped fuel frags [] out h strippedTop_nil

/-- Merging two fragments that share the key `k`, both with dictionary
values, where the higher-priority dictionary carries an unrecognised
`_merge_strategy`, fails with the invalid-merge-strategy error carrying the
offending value and the list of valid strategies. -/
lemma mergeArgs_invalid_strategy (fuel : Nat) (k : String)
    (da db : List (String × Val)) (strat : Val)
    (hk : k ≠ mergeStrategyKey)
    (hs : lookupKey? db mergeStrategyKey = some strat)
    (h1 : isStrVal strat "deep_merge" = false)
    (h2 : isStrVal strat "replace" = false)
    (h3 : isStrVal strat "remove" = false) :
    mergeArgs (fuel + 1) [.dict [(k, .dict da)], .dict [(k, .dict db)]] =
      .error (.invalidMergeStrategy strat VALID_MERGE_STRATEGIES) := by
  simp [mergeArgs, mergeArgsGo, mergeFrag, convV, lookupKey?, setKey, hasKey,
    hk, hs, h1, h2, h3]

/-- A hook callable registered with `set_after_hooks`; `id` distinguishes
hooks, `callable` models Python's `callable()` test. -/
structure Hook where
  id : Nat
  callable : Bool
deriving Repr, DecidableEq

/-- The route's `_after_hooks` mapping: scope name to the hooks stored for
that scope (`set_after_hooks` replaces a scope's list wholesale). -/
abbrev AfterHooks : Type := List (String × List Hook)

/-- `BaseRoute.set_after_hooks`: validates the scope against
`VALID_HOOK_SCENARIOS`, checks every hook is callable, then stores the list
under the scope (replacing any previous list for that scope). -/
def setAfterHooks (ah : AfterHooks) (scope : String) (hooks : List Hook) :
    Except Err AfterHooks :=
  if ¬ VALID_HOOK_SCENARIOS.contains scope then
    .error (.invalidHookScope scope)
  else if hooks.any (fun h => !h.callable) then
    .error .hookNotCallable
  else
    .ok (setKey ah scope hooks)

/-- `BaseRoute._execute_after_hooks`: the hooks stored for scope `route`
run first, then scope `method`, then scope `scenario`, each list in its
stored order. -/
def executeAfterHooks (ah : AfterHooks) : List Hook :=
  ((lookupKey? ah "route").getD []) ++
    ((lookupKey? ah "method").getD []) ++
    ((lookupKey? ah "scenario").getD [])

/-- A route override function (`__route__`, `__get__`/`__post__`/…, or a
scenario method).  `arity` is the declared parameter count reported by
`inspect.signature`; `call0` is its return value when called with no
arguments; `call1` is the mutation it performs on the fresh
`AttributeDictionary` it receives in the one-argument form (mapping the
container's `_data` to its final state); `ret1` is the return value of the
one-argument form, which the engine discards; `regs` records the
`set_after_hooks` calls the body performs while it runs. -/
structure Override where
  arity : Nat
  call0 : Unit → Val
  call1 : List (String × Val) → List (String × Val)
  ret1 : Val
  regs : List (String × List Hook)

/-- Apply the `set_after_hooks` calls an override performs, in order. -/
def applyRegs (ah : AfterHooks) :
    List (String × List Hook) → Except Err AfterHooks
  | [] => .ok ah
  | (scope, hooks) :: rest =>
    match setAfterHooks ah scope hooks with
    | .error e => .error e
    | .ok ah2 => applyRegs ah2 rest

/-- `BaseRoute._invoke_with_arg_dict_conditionally`: more than one declared
parameter fails before the function is called; exactly one parameter receives
a fresh empty `AttributeDictionary` whose final contents become the fragment
(the function's return value is ignored); zero parameters means the return
value is the fragment. -/
def invokeOverride (o : Override) (ah : AfterHooks) :
    Except Err (Val × AfterHooks) :=
  if o.arity > 1 then .error (.tooManyArguments o.arity)
  else
    match applyRegs ah o.regs with
    | .error e => .error e
    | .ok ah2 =>
      if o.arity = 1 then .ok (.attr (o.call1 []), ah2)
      else .ok (o.call0 (), ah2)

/-- An attribute that scenario lookup (`getattr`) can find on a route or
scenario-group instance: either a callable override or a non-callable
value. -/
inductive ScenAttr where
  | callableAttr (o : Override)
  | nonCallable

/-- A value stored in a route's `scenario_groups` mapping: a falsy value
(such as `None`), a truthy object that is not a class, or a scenario-group
class whose instances expose the given scenario attributes. -/
inductive GroupEntry where
  | falsyEntry
  | truthyNonType
  | groupClass (scenarios : List (String × ScenAttr))

/-- The route state the composition pipeline reads (see `BaseMixin` for the
fields' defaults).  `baseUrl` models the class-level `BASE_URL` read from
`Config` (that module is not under version control here; the value is an
opaque string no claim depends on). -/
structure RouteModel where
  baseUrl : String
  endpoint : String
  routeOverride : Override
  methodOverrides : List (String × Override)
  scenarioMethod : Option Override
  scenarioGroups : Option (List (String × GroupEntry))
  routeScenarios : List (String × ScenAttr)
  currentScenarioGroup : Option String
  currentScenarioName : Option String

/-- Rebuild the route with new scenario bookkeeping. -/
def RouteModel.withScenario (r : RouteModel) (g n : Option String)
    (m : Option Override) : RouteModel :=
  ⟨r.baseUrl, r.endpoint, r.routeOverride, r.methodOverrides, m,
   r.scenarioGroups, r.routeScenarios, g, n⟩

/-- `BaseRoute._get_scenario_group`: a falsy `scenario_groups` (missing or
empty) fails first; then a falsy lookup result (absent key, or a falsy entry
such as `None`) fails as an unknown group; a non-class entry fails as an
invalid type; otherwise the class is instantiated (its instance exposing the
group's scenario attributes, with a back-reference to the route). -/
def getScenarioGroup (r : RouteModel) (group : String) :
    Except Err (List (String × ScenAttr)) :=
  match r.scenarioGroups with
  | none => .error .noScenarioGroupsConfigured
  | some gs =>
    if gs.isEmpty then .error .noScenarioGroupsConfigured
    else
      match lookupKey? gs group with
      | none => .error (.unknownScenarioGroup group)
      | some .falsyEntry => .error (.unknownScenarioGroup group)
      | some .truthyNonType => .error (.invalidScenarioGroupType group)
      | some (.groupClass scens) => .ok scens

/-- `BaseRoute.for_scenario`: resolve the scenario attribute on the group
instance (when a truthy group name is given) or on the route itself, and
bind it as the route's scenario method when it is callable and the name is
truthy. -/
def forScenario (r : RouteModel) (scenarioName : String)
    (groupName : Option String) : Except Err RouteModel :=
  match (match groupName with
         | some g => if g ≠ "" then getScenarioGroup r g
                     else .ok r.routeScenarios
         | none => .ok r.routeScenarios) with
  | .error e => .error e
  | .ok attrs =>
    match lookupKey? attrs scenarioName with
    | some (.callableAttr o) =>
      if scenarioName ≠ "" then
        .ok (r.withScenario groupName (some scenarioName) (some o))
      else .error (.scenarioNotFound scenarioName)
    | _ => .error (.scenarioNotFound scenarioName)

/-- `BaseRoute._get_request_args`: clear the after-hook map (the previous
request's hooks `prev` are discarded — the embedding takes them as an
argument and starts from the empty map, which is exactly the effect of
`self._after_hooks = {}`), invoke the route override, then the
verb-specific override when defined, then the bound scenario method, and
merge [route, method, scenario, call-time kwargs] in that order. -/
def getRequestArgs (fuel : Nat) (r : RouteModel) (prev : AfterHooks)
    (method : String) (kwargs : List (String × Val)) :
    Except Err (List (String × Val) × AfterHooks) :=
  let ah0 : AfterHooks := []
  match invokeOverride r.routeOverride ah0 with
  | .error e => .error e
  | .ok (routeAttr, ah1) =>
    match (match lookupKey? r.methodOverrides method with
           | some mo => invokeOverride mo ah1
           | none => .ok (.dict [], ah1)) with
    | .error e => .error e
    | .ok (methodAttr, ah2) =>
      match (match r.scenarioMethod with
             | some so => invokeOverride so ah2
             | none => .ok (.dict [], ah2)) with
      | .error e => .error e
      | .ok (scenAttr, ah3) =>
        match mergeArgs fuel [routeAttr, methodAttr, scenAttr, .dict kwargs] with
        | .error e => .error e
        | .ok args => .ok (args, ah3)

/-- The opening-brace character of the placeholder syntax. -/
def lbraceC : Char := Char.ofNat 123

/-- The closing-brace character of the placeholder syntax. -/
def rbraceC : Char := Char.ofNat 125

/-- The single-quote character used by Python repr. -/
def quoteS : String := String.singleton (Char.ofNat 39)

mutual

/-- Python `repr` of a fragment value (nested values inside a dictionary are
rendered with repr, strings quoted). -/
def pyReprV : Val → String
  | .str s => quoteS ++ s ++ quoteS
  | .int n => toString n
  | .pyNone => "None"
  | .dict d => "\x7b" ++ pyReprE d ++ "\x7d"
  | .attr d => "\x7b" ++ pyReprE d ++ "\x7d"

/-- Python `repr` of dictionary entries, comma separated. -/
def pyReprE : List (String × Val) → String
  | [] => ""
  | [(k, v)] => quoteS ++ k ++ quoteS ++ ": " ++ pyReprV v
  | (k, v) :: rest =>
    quoteS ++ k ++ quoteS ++ ": " ++ pyReprV v ++ ", " ++ pyReprE rest

end

/-- Python `str` of a fragment value, as `str.format` substitution renders
it (top-level strings unquoted). -/
def pyStrV : Val → String
  | .str s => s
  | .int n => toString n
  | .pyNone => "None"
  | .dict d => "\x7b" ++ pyReprE d ++ "\x7d"
  | .attr d => "\x7b" ++ pyReprE d ++ "\x7d"

lemma length_dropWhile_le {α : Type} (p : α → Bool) (l : List α) :
    (l.dropWhile p).length ≤ l.length := by
  induction l with
  | nil => simp [List.dropWhile]
  | cons a t ih =>
    by_cases h : p a
    · simp only [List.dropWhile, h, List.length_cons]
      exact le_trans ih (Nat.le_succ _)
    · simp only [List.dropWhile, h]
      simp

/-- Python `template.format(**subs)` restricted to plain `\x7bname\x7d`
placeholders: a placeholder is replaced by the `str` of its substitution,
a missing substitution raises `KeyError`, doubled braces escape, and a
stray brace raises `ValueError`. -/
def formatChars : List Char → List (String × Val) → Except Err String
  | [], _ => .ok ""
  | c :: rest, subs =>
    if c = lbraceC then
      match rest with
      | [] => .error .formatError
      | c2 :: rest2 =>
        if c2 = lbraceC then
          match formatChars rest2 subs with
          | .error e => .error e
          | .ok s => .ok (String.singleton lbraceC ++ s)
        else
          let name := (c2 :: rest2).takeWhile (fun ch => ch ≠ rbraceC)
          match hdrop : (c2 :: rest2).dropWhile (fun ch => ch ≠ rbraceC) with
          | [] => .error .formatError
          | _ :: rest3 =>
            match lookupKey? subs (String.mk name) with
            | none => .error (.missingPlaceholder (String.mk name))
            | some v =>
              match formatChars rest3 subs with
              | .error e => .error e
              | .ok s => .ok (pyStrV v ++ s)
    else if c = rbraceC then
      match rest with
      | [] => .error .formatError
      | c2 :: rest2 =>
        if c2 = rbraceC then
          match formatChars rest2 subs with
          | .error e => .error e
          | .ok s => .ok (String.singleton rbraceC ++ s)
        else .error .formatError
    else
      match formatChars rest subs with
      | .error e => .error e
      | .ok s => .ok (String.singleton c ++ s)
termination_by cs _ => cs.length
decreasing_by
  all_goals simp_all
  all_goals try omega
  have hle := length_dropWhile_le (fun ch => !decide (ch = rbraceC)) (c2 :: rest2)
  rw [hdrop] at hle
  simp at hle
  omega

/-- Python `method.upper()` on the ASCII method names. -/
def strUpper (s : String) : String := String.mk (s.data.map Char.toUpper)

/-- Validation step of `BaseRoute.get_parsed_request_args` (lines 374-385):
the key set must be a subset of `ALLOWED_COMMON_PARAMS` plus the verb's
entry in `ALLOWED_METHOD_PARAMS`; otherwise the error names the offending
keys (in key order; the source computes an unordered set difference) and the
verb. -/
def validateRequestArgs (method : String) (args : List (String × Val)) :
    Except Err Unit :=
  match lookupKey? ALLOWED_METHOD_PARAMS (strUpper method) with
  | none => .error (.unknownMethod method)
  | some mparams =>
    let allowed := ALLOWED_COMMON_PARAMS ++ mparams
    let keys := args.map Prod.fst
    if keys.all (fun k => allowed.contains k) then .ok ()
    else
      .error (.invalidRequestArguments
        (keys.filter (fun k => !(allowed.contains k))) method)

/-- `BaseRoute.get_parsed_request_args`: merge, pop `url_placeholders`,
construct the URL from the endpoint when no `url` key is present (failing
when the endpoint is empty), then validate the key set. -/
def getParsedRequestArgs (fuel : Nat) (r : RouteModel) (prev : AfterHooks)
    (method : String) (kwargs : List (String × Val)) :
    Except Err (List (String × Val) × AfterHooks) :=
  match getRequestArgs fuel r prev method kwargs with
  | .error e => .error e
  | .ok (args0, ah) =>
    let phv := lookupKey? args0 "url_placeholders"
    let args1 := removeKey args0 "url_placeholders"
    match (if hasKey args1 "url" then
             Except.ok args1
           else if r.endpoint = "" then
             Except.error Err.missingEndpoint
           else
             match (match phv with
                    | none => Except.ok []
                    | some (Val.dict d) => Except.ok d
                    | some _ => Except.error Err.notADict) with
             | Except.error e => Except.error e
             | Except.ok ph =>
               match formatChars (r.baseUrl ++ r.endpoint).data ph with
               | Except.error e => Except.error e
               | Except.ok url => Except.ok (setKey args1 "url" (.str url))) with
    | .error e => .error e
    | .ok args2 =>
      match validateRequestArgs method args2 with
      | .error e => .error e
      | .ok _ => .ok (args2, ah)

/-- Externally observable steps of one request: the transport invocation and
the after-hook executions. -/
inductive Event where
  | transportCall (method : String) (args : List (String × Val))
  | afterHook (h : Hook)

/-- `BaseRoute._request`: compose and validate the arguments, invoke the
transport, then execute the after hooks in priority order.  The trace
records the transport call and the hook executions; a composition failure
produces an empty trace (nothing was sent, no hook ran). -/
def runRequest (fuel : Nat) (r : RouteModel) (prev : AfterHooks)
    (method : String) (kwargs : List (String × Val)) :
    Except Err (List (String × Val)) × List Event :=
  match getParsedRequestArgs fuel r prev method kwargs with
  | .error e => (.error e, [])
  | .ok (args, ah) =>
    (.ok args,
     .transportCall method args :: (executeAfterHooks ah).map Event.afterHook)

/-- `route.for_scenario(name, group).get(**kwargs)` and friends: scenario
resolution runs first; when it fails the request pipeline never starts. -/
def forScenarioThenRequest (fuel : Nat) (r : RouteModel) (prev : AfterHooks)
    (scenarioName : String) (groupName : Option String) (method : String)
    (kwargs : List (String × Val)) :
    Except Err (List (String × Val)) × List Event :=
  match forScenario r scenarioName groupName with
  | .error e => (.error e, [])
  | .ok r2 => runRequest fuel r2 prev method kwargs

/-!
Heap model of `_merge_request_args`.  The tree model above computes the
value of the merged mapping; dictionaries there are immutable trees, so it
cannot express the in-place `value.pop("_merge_strategy", ...)` calls the
source performs on the caller's own dictionaries, nor the aliasing of input
sub-dictionaries in the output.  The model below runs the same algorithm
over an explicit heap of dictionary cells: a fragment is the address of a
cell, dictionary values are `HVal.ref` addresses, and the two pop sites
mutate the addressed cell.  Fragments here are plain dictionaries (the
`AttributeDictionary` conversion branch, which copies into a fresh plain
dictionary via `to_dict` and therefore never mutates the container, is
covered by the tree model). -/

/-- The entries of one dictionary cell. -/
abbrev HEntries : Type := List (String × HVal)

/-- A heap of dictionary cells; the address of a cell is its index. -/
structure Heap where
  cells : List HEntries

/-- Read the cell at address `a` (a dangling address reads as empty). -/
def readH (h : Heap) (a : Nat) : HEntries := (h.cells.get? a).getD []

/-- Overwrite the cell at address `a`. -/
def writeH (h : Heap) (a : Nat) (d : HEntries) : Heap := ⟨h.cells.set a d⟩

/-- Allocate a fresh cell, returning the extended heap and its address. -/
def allocH (h : Heap) (d : HEntries) : Heap × Nat :=
  (⟨h.cells ++ [d]⟩, h.cells.length)

/-- Python `v == s` on heap values. -/
def isStrH (v : HVal) (s : String) : Bool :=
  match v with
  | .str t => t = s
  | _ => false

/-- Heap version of the merge loop body for one fragment's entry list.
Mirrors `mergeFrag` branch for branch; the pops write the popped cell back
into the heap, `replace` installs the reference to the caller's dictionary
verbatim, and `deep_merge` allocates a fresh cell for the recursive result
(Python builds a fresh `merged_args` dictionary in the recursive call). -/
def hMergeEntries : Nat → Heap → HEntries → HEntries →
    Except Err (Heap × HEntries)
  | _, h, md, [] => .ok (h, md)
  | 0, _, _, _ :: _ => .error .fuelExhausted
  | fuel + 1, h, md, (key, value) :: rest =>
    match lookupKey? md key, value with
    | some (.ref ma), .ref va =>
      -- key in merged_args, both values dictionaries
      let vd := readH h va
      let strat := (lookupKey? vd mergeStrategyKey).getD (.str "deep_merge")
      let h1 := writeH h va (removeKey vd mergeStrategyKey)
      if isStrH strat "deep_merge" then
        match hMergeEntries fuel h1 [] (readH h1 ma) with
        | .error e => .error e
        | .ok (h2, m1) =>
          match hMergeEntries fuel h2 m1 (readH h2 va) with
          | .error e => .error e
          | .ok (h3, m2) =>
            let ha := allocH h3 m2
            hMergeEntries fuel ha.1 (setKey md key (.ref ha.2)) rest
      else if isStrH strat "replace" then
        hMergeEntries fuel h1 (setKey md key (.ref va)) rest
      else if isStrH strat "remove" then
        hMergeEntries fuel h1 (removeKey md key) rest
      else
        .error (.invalidMergeStrategyH strat VALID_MERGE_STRATEGIES)
    | _, _ =>
      if key = mergeStrategyKey then
        hMergeEntries fuel h md rest
      else
        match value with
        | .ref va =>
          let h1 := writeH h va (removeKey (readH h va) mergeStrategyKey)
          hMergeEntries fuel h1 (setKey md key (.ref va)) rest
        | v => hMergeEntries fuel h (setKey md key v) rest

/-- Heap version of the outer fragment loop. -/
def hMergeFrags : Nat → Heap → HEntries → List Nat →
    Except Err (Heap × HEntries)
  | _, h, md, [] => .ok (h, md)
  | 0, _, _, _ :: _ => .error .fuelExhausted
  | fuel + 1, h, md, a :: rest =>
    match hMergeEntries fuel h md (readH h a) with
    | .error e => .error e
    | .ok (h2, md2) => hMergeFrags fuel h2 md2 rest

/-- Heap version of `_merge_request_args` on plain-dictionary fragments given
by their addresses. -/
def hMerge (fuel : Nat) (h : Heap) (frags : List Nat) :
    Except Err (Heap × HEntries) :=
  hMergeFrags fuel h [] frags

/-- The cell at `a` has no top-level `_merge_strategy` key. -/
def msFreeH (h : Heap) (a : Nat) : Prop :=
  hasKey (readH h a) mergeStrategyKey = false

/-- Heap evolution during a merge: cells never regain a top-level
`_merge_strategy` key, and entries under other keys are never removed or
altered. -/
def heapPres (h h' : Heap) : Prop :=
  (∀ a, msFreeH h a → msFreeH h' a) ∧
  (∀ a k v, k ≠ mergeStrategyKey → (k, v) ∈ readH h a → (k, v) ∈ readH h' a)

lemma get?_set_self {α : Type} :
    ∀ (l : List α) (i : Nat) (a : α),
      (l.set i a).get? i = if i < l.length then some a else none
  | [], i, a => by simp
  | x :: t, 0, a => by simp
  | x :: t, i + 1, a => by
    simp only [List.set, List.get?, List.length_cons]
    rw [get?_set_self t i a]
    by_cases h : i < t.length
    · simp [h, Nat.succ_lt_succ h]
    · have : ¬ i + 1 < t.length + 1 := by omega
      simp [h, this]

lemma get?_set_ne {α : Type} :
    ∀ (l : List α) (i j : Nat) (a : α), i ≠ j →
      (l.set i a).get? j = l.get? j
  | [], _, _, _, _ => by simp
  | x :: t, 0, 0, a, hne => absurd rfl hne
  | x :: t, 0, j + 1, a, _ => by simp
  | x :: t, i + 1, 0, a, _ => by simp
  | x :: t, i + 1, j + 1, a, hne => by
    simp only [List.set, List.get?]
    exact get?_set_ne t i j a (fun h => hne (h ▸ rfl))

lemma readH_writeH_ne (h : Heap) (a b : Nat) (d : HEntries) (hne : a ≠ b) :
    readH (writeH h a d) b = readH h b := by
  simp only [readH, writeH]
  rw [get?_set_ne h.cells a b d hne]

lemma readH_writeH_self (h : Heap) (a : Nat) (d : HEntries) :
    readH (writeH h a d) a =
      if a < h.cells.length then d else readH h a := by
  simp only [readH, writeH]
  rw [get?_set_self]
  by_cases hlt : a < h.cells.length
  · simp only [hlt, if_true]
    rfl
  · simp only [hlt, if_false]
    have h0 : h.cells.get? a = none := by
      rw [List.get?_eq_none]
      omega
    rw [h0]

lemma readH_allocH (h : Heap) (d : HEntries) (b : Nat) :
    readH (allocH h d).1 b =
      if b = h.cells.length then d else readH h b := by
  simp only [readH, allocH]
  by_cases hb : b = h.cells.length
  · subst hb
    rw [List.get?_append_right (Nat.le_refl _)]
    simp
  · by_cases hlt : b < h.cells.length
    · rw [List.get?_append hlt]
      simp [hb]
    · have h1 : (h.cells ++ [d]).get? b = none := by
        rw [List.get?_eq_none]
        simp
        omega
      have h2 : h.cells.get? b = none := by
        rw [List.get?_eq_none]
        omega
      rw [h1, h2]
      simp [hb]

lemma heapPres_refl (h : Heap) : heapPres h h :=
  ⟨fun _ hf => hf, fun _ _ _ _ hm => hm⟩

lemma heapPres_trans {h1 h2 h3 : Heap}
    (a : heapPres h1 h2) (b : heapPres h2 h3) : heapPres h1 h3 :=
  ⟨fun x hf => b.1 x (a.1 x hf),
   fun x k v hk hm => b.2 x k v hk (a.2 x k v hk hm)⟩

lemma hasKey_removeKey_still {α : Type} (d : List (String × α))
    (k k' : String) (h : hasKey d k' = false) :
    hasKey (removeKey d k) k' = false := by
  by_cases hx : k' = k
  · subst hx
    exact hasKey_removeKey_self d k'
  · rw [hasKey, lookupKey?_removeKey_other d k k' hx]
    exact h

lemma mem_removeKey_of_ne {α : Type} (d : List (String × α))
    (key k : String) (v : α) (hk : k ≠ key) (hm : (k, v) ∈ d) :
    (k, v) ∈ removeKey d key := by
  rw [removeKey, List.mem_filter]
  exact ⟨hm, by simp [hk]⟩

lemma heapPres_pop (h : Heap) (va : Nat) :
    heapPres h (writeH h va (removeKey (readH h va) mergeStrategyKey)) := by
  constructor
  · intro a hf
    by_cases ha : va = a
    · subst ha
      unfold msFreeH at hf ⊢
      rw [readH_writeH_self]
      by_cases hlt : va < h.cells.length
      · simp only [hlt, if_true]
        exact hasKey_removeKey_still _ _ _ hf
      · simp only [hlt, if_false]
        exact hf
    · unfold msFreeH at hf ⊢
      rw [readH_writeH_ne h va a _ ha]
      exact hf
  · intro a k v hk hm
    by_cases ha : va = a
    · subst ha
      rw [readH_writeH_self]
      by_cases hlt : va < h.cells.length
      · simp only [hlt, if_true]
        exact mem_removeKey_of_ne _ _ _ _ hk hm
      · simp only [hlt, if_false]
        exact hm
    · rw [readH_writeH_ne h va a _ ha]
      exact hm

lemma msFreeH_pop (h : Heap) (va : Nat) :
    msFreeH (writeH h va (removeKey (readH h va) mergeStrategyKey)) va := by
  unfold msFreeH
  rw [readH_writeH_self]
  by_cases hlt : va < h.cells.length
  · simp only [hlt, if_true]
    exact hasKey_removeKey_self _ _
  · simp only [hlt, if_false]
    have : readH h va = [] := by
      unfold readH
      have h0 : h.cells.get? va = none := by
        rw [List.get?_eq_none]
        omega
      rw [h0]
      rfl
    rw [this]
    rfl

lemma heapPres_alloc (h : Heap) (d : HEntries)
    (hd : hasKey d mergeStrategyKey = false) : heapPres h (allocH h d).1 := by
  constructor
  · intro a hf
    unfold msFreeH at hf ⊢
    rw [readH_allocH]
    by_cases hb : a = h.cells.length
    · simp [hb, hd]
    · simp [hb, hf]
  · intro a k v hk hm
    rw [readH_allocH]
    by_cases hb : a = h.cells.length
    · subst hb
      have : readH h h.cells.length = [] := by
        unfold readH
        have : h.cells.get? h.cells.length = none := by
          rw [List.get?_eq_none]
        simp [this]
      rw [this] at hm
      cases hm
    · simp only [hb, if_false]
      exact hm

lemma key_ne_ms_of_lookup {α : Type} (md : List (String × α)) (key : String)
    (x : α) (hmd : hasKey md mergeStrategyKey = false)
    (hl : lookupKey? md key = some x) : key ≠ mergeStrategyKey := by
  intro hk
  subst hk
  rw [hasKey, hl] at hmd
  simp at hmd

/-- Main invariant of the heap merge: a successful run never leaves a
`_merge_strategy` key in the accumulator, only ever removes
`_merge_strategy` keys from existing cells, and pops the directive from the
cell behind every reference-valued entry it processes (the entry's key not
being the directive key itself). -/
lemma hMergeEntries_spec (fuel : Nat) (h : Heap) (md entries : HEntries) :
    ∀ h' md', hMergeEntries fuel h md entries = .ok (h', md') →
      hasKey md mergeStrategyKey = false →
      (hasKey md' mergeStrategyKey = false ∧ heapPres h h' ∧
       ∀ k va, (k, HVal.ref va) ∈ entries → k ≠ mergeStrategyKey →
         msFreeH h' va) := by
  induction fuel, h, md, entries using hMergeEntries.induct with
  | case1 t h md =>
    intro h' md' heq hmd
    simp only [hMergeEntries] at heq
    cases heq
    refine ⟨hmd, heapPres_refl h, ?_⟩
    intro k va hmem _
    cases hmem
  | case2 x x1 head tail =>
    intro h' md' heq _
    simp only [hMergeEntries] at heq
    cases heq
  | case3 fuel h md key rest ma va hlook vd strat h1 hdeep e herr ih1 =>
    intro h' md' heq hmd
    have hd : isStrH ((lookupKey? (readH h va) mergeStrategyKey).getD
        (HVal.str "deep_merge")) "deep_merge" = true := hdeep
    have he : hMergeEntries fuel
        (writeH h va (removeKey (readH h va) mergeStrategyKey)) []
        (readH (writeH h va (removeKey (readH h va) mergeStrategyKey)) ma) =
        .error e := herr
    simp [hMergeEntries, hlook, hd, he] at heq
  | case4 fuel h md key rest ma va hlook vd strat h1 hdeep h3 m2 hok1 e herr2
      ih1 ih2 =>
    intro h' md' heq hmd
    have hd : isStrH ((lookupKey? (readH h va) mergeStrategyKey).getD
        (HVal.str "deep_merge")) "deep_merge" = true := hdeep
    have h1e : hMergeEntries fuel
        (writeH h va (removeKey (readH h va) mergeStrategyKey)) []
        (readH (writeH h va (removeKey (readH h va) mergeStrategyKey)) ma) =
        .ok (h3, m2) := hok1
    have h2e : hMergeEntries fuel h3 m2 (readH h3 va) = .error e := herr2
    simp [hMergeEntries, hlook, hd, h1e, h2e] at heq
  | case5 fuel h md key rest ma va hlook vd strat h1 hdeep h3 m2 hok1 h31 m21
      hok2 ha ih1 ih2 ih3 =>
    intro h' md' heq hmd
    have hd : isStrH ((lookupKey? (readH h va) mergeStrategyKey).getD
        (HVal.str "deep_merge")) "deep_merge" = true := hdeep
    have h1e : hMergeEntries fuel
        (writeH h va (removeKey (readH h va) mergeStrategyKey)) []
        (readH (writeH h va (removeKey (readH h va) mergeStrategyKey)) ma) =
        .ok (h3, m2) := hok1
    have h2e : hMergeEntries fuel h3 m2 (readH h3 va) = .ok (h31, m21) := hok2
    simp [hMergeEntries, hlook, hd, h1e, h2e] at heq
    have hkeyne : key ≠ mergeStrategyKey :=
      key_ne_ms_of_lookup md key _ hmd hlook
    have IH1 := ih1 h3 m2 h1e rfl
    have IH2 := ih2 h31 m21 h2e IH1.1
    have pPop : heapPres h
        (writeH h va (removeKey (readH h va) mergeStrategyKey)) :=
      heapPres_pop h va
    have pAlloc : heapPres h31 (allocH h31 m21).1 :=
      heapPres_alloc h31 m21 IH2.1
    have hset : hasKey (setKey md key (HVal.ref (allocH h31 m21).2))
        mergeStrategyKey = false := by
      rw [hasKey_setKey_other md key mergeStrategyKey _ (Ne.symm hkeyne)]
      exact hmd
    have IH3 := ih3 h' md' heq hset
    have pAll : heapPres h h' :=
      heapPres_trans pPop (heapPres_trans IH1.2.1
        (heapPres_trans IH2.2.1 (heapPres_trans pAlloc IH3.2.1)))
    refine ⟨IH3.1, pAll, ?_⟩
    intro k0 va0 hmem hk0
    rcases List.mem_cons.mp hmem with hhead | htail
    · have hk : k0 = key ∧ HVal.ref va0 = HVal.ref va := by
        have := Prod.mk.injEq k0 (HVal.ref va0) key (HVal.ref va) ▸ hhead
        exact ⟨this.1, this.2⟩
      obtain ⟨rfl, hv⟩ := hk
      injection hv with hv
      subst hv
      have f1 : msFreeH
          (writeH h va0 (removeKey (readH h va0) mergeStrategyKey)) va0 :=
        msFreeH_pop h va0
      exact IH3.2.1.1 va0 (pAlloc.1 va0 (IH2.2.1.1 va0 (IH1.2.1.1 va0 f1)))
    · exact IH3.2.2 k0 va0 htail hk0
  | case6 fuel h md key rest ma va hlook vd strat h1 hndeep hrepl ih =>
    intro h' md' heq hmd
    have hd : ¬ isStrH ((lookupKey? (readH h va) mergeStrategyKey).getD
        (HVal.str "deep_merge")) "deep_merge" = true := hndeep
    have hr : isStrH ((lookupKey? (readH h va) mergeStrategyKey).getD
        (HVal.str "deep_merge")) "replace" = true := hrepl
    simp [hMergeEntries, hlook, hd, hr] at heq
    have hkeyne : key ≠ mergeStrategyKey :=
      key_ne_ms_of_lookup md key _ hmd hlook
    have hset : hasKey (setKey md key (HVal.ref va)) mergeStrategyKey =
        false := by
      rw [hasKey_setKey_other md key mergeStrategyKey _ (Ne.symm hkeyne)]
      exact hmd
    have IH := ih h' md' heq hset
    have pPop : heapPres h
        (writeH h va (removeKey (readH h va) mergeStrategyKey)) :=
      heapPres_pop h va
    refine ⟨IH.1, heapPres_trans pPop IH.2.1, ?_⟩
    intro k0 va0 hmem hk0
    rcases List.mem_cons.mp hmem with hhead | htail
    · have hk : k0 = key ∧ HVal.ref va0 = HVal.ref va := by
        have := Prod.mk.injEq k0 (HVal.ref va0) key (HVal.ref va) ▸ hhead
        exact ⟨this.1, this.2⟩
      obtain ⟨rfl, hv⟩ := hk
      injection hv with hv
      subst hv
      exact IH.2.1.1 va0 (msFreeH_pop h va0)
    · exact IH.2.2 k0 va0 htail hk0
  | case7 fuel h md key rest ma va hlook vd strat h1 hndeep hnrepl hrem ih =>
    intro h' md' heq hmd
    have hd : ¬ isStrH ((lookupKey? (readH h va) mergeStrategyKey).getD
        (HVal.str "deep_merge")) "deep_merge" = true := hndeep
    have hr : ¬ isStrH ((lookupKey? (readH h va) mergeStrategyKey).getD
        (HVal.str "deep_merge")) "replace" = true := hnrepl
    have hm : isStrH ((lookupKey? (readH h va) mergeStrategyKey).getD
        (HVal.str "deep_merge")) "remove" = true := hrem
    simp [hMergeEntries, hlook, hd, hr, hm] at heq
    have IH := ih h' md' heq (hasKey_removeKey_still md key _ hmd)
    have pPop : heapPres h
        (writeH h va (removeKey (readH h va) mergeStrategyKey)) :=
      heapPres_pop h va
    refine ⟨IH.1, heapPres_trans pPop IH.2.1, ?_⟩
    intro k0 va0 hmem hk0
    rcases List.mem_cons.mp hmem with hhead | htail
    · have hk : k0 = key ∧ HVal.ref va0 = HVal.ref va := by
        have := Prod.mk.injEq k0 (HVal.ref va0) key (HVal.ref va) ▸ hhead
        exact ⟨this.1, this.2⟩
      obtain ⟨rfl, hv⟩ := hk
      injection hv with hv
      subst hv
      exact IH.2.1.1 va0 (msFreeH_pop h va0)
    · exact IH.2.2 k0 va0 htail hk0
  | case8 fuel h md key rest ma va hlook vd strat hndeep hnrepl hnrem =>
    intro h' md' heq hmd
    have hd : ¬ isStrH ((lookupKey? (readH h va) mergeStrategyKey).getD
        (HVal.str "deep_merge")) "deep_merge" = true := hndeep
    have hr : ¬ isStrH ((lookupKey? (readH h va) mergeStrategyKey).getD
        (HVal.str "deep_merge")) "replace" = true := hnrepl
    have hm : ¬ isStrH ((lookupKey? (readH h va) mergeStrategyKey).getD
        (HVal.str "deep_merge")) "remove" = true := hnrem
    simp [hMergeEntries, hlook, hd, hr, hm] at heq
  | case9 fuel h md value rest hnb ih =>
    intro h' md' heq hmd
    simp [hMergeEntries, hnb] at heq
    have IH := ih h' md' heq hmd
    refine ⟨IH.1, IH.2.1, ?_⟩
    intro k0 va0 hmem hk0
    rcases List.mem_cons.mp hmem with hhead | htail
    · have hk : k0 = mergeStrategyKey := by
        have := Prod.mk.injEq k0 (HVal.ref va0) mergeStrategyKey value ▸ hhead
        exact this.1
      exact absurd hk hk0
    · exact IH.2.2 k0 va0 htail hk0
  | case10 fuel h md key rest hkey va h1 hnb ih =>
    intro h' md' heq hmd
    simp [hMergeEntries, hkey, hnb] at heq
    have hset : hasKey (setKey md key (HVal.ref va)) mergeStrategyKey =
        false := by
      rw [hasKey_setKey_other md key mergeStrategyKey _
        (fun hx => hkey hx.symm)]
      exact hmd
    have IH := ih h' md' heq hset
    have pPop : heapPres h
        (writeH h va (removeKey (readH h va) mergeStrategyKey)) :=
      heapPres_pop h va
    refine ⟨IH.1, heapPres_trans pPop IH.2.1, ?_⟩
    intro k0 va0 hmem hk0
    rcases List.mem_cons.mp hmem with hhead | htail
    · have hk : k0 = key ∧ HVal.ref va0 = HVal.ref va := by
        have := Prod.mk.injEq k0 (HVal.ref va0) key (HVal.ref va) ▸ hhead
        exact ⟨this.1, this.2⟩
      obtain ⟨rfl, hv⟩ := hk
      injection hv with hv
      subst hv
      exact IH.2.1.1 va0 (msFreeH_pop h va0)
    · exact IH.2.2 k0 va0 htail hk0
  | case11 fuel h md key rest hkey v hnref hnb ih =>
    intro h' md' heq hmd
    simp [hMergeEntries, hkey, hnb, hnref] at heq
    have hset : hasKey (setKey md key v) mergeStrategyKey = false := by
      rw [hasKey_setKey_other md key mergeStrategyKey _
        (fun hx => hkey hx.symm)]
      exact hmd
    have IH := ih h' md' heq hset
    refine ⟨IH.1, IH.2.1, ?_⟩
    intro k0 va0 hmem hk0
    rcases List.mem_cons.mp hmem with hhead | htail
    · have hv : HVal.ref va0 = v := by
        have := Prod.mk.injEq k0 (HVal.ref va0) key v ▸ hhead
        exact this.2
      exact absurd hv.symm (fun hx => hnref va0 hx)
    · exact IH.2.2 k0 va0 htail hk0

lemma hMergeFrags_spec (fuel : Nat) (h : Heap) (md : HEntries)
    (frags : List Nat) :
    ∀ h' md', hMergeFrags fuel h md frags = .ok (h', md') →
      hasKey md mergeStrategyKey = false →
      (hasKey md' mergeStrategyKey = false ∧ heapPres h h' ∧
       ∀ a ∈ frags, ∀ k va, (k, HVal.ref va) ∈ readH h a →
         k ≠ mergeStrategyKey → msFreeH h' va) := by
  induction fuel, h, md, frags using hMergeFrags.induct with
  | case1 t h md =>
    intro h' md' heq hmd
    simp only [hMergeFrags] at heq
    cases heq
    refine ⟨hmd, heapPres_refl h, ?_⟩
    intro a ha
    cases ha
  | case2 x x1 head tail =>
    intro h' md' heq _
    simp only [hMergeFrags] at heq
    cases heq
  | case3 fuel h md a rest e herr =>
    intro h' md' heq _
    simp [hMergeFrags, herr] at heq
  | case4 fuel h md a rest h3 m2 hok ih =>
    intro h' md' heq hmd
    simp [hMergeFrags, hok] at heq
    have SpecHead := hMergeEntries_spec fuel h md (readH h a) h3 m2 hok hmd
    have IHrest := ih h' md' heq SpecHead.1
    refine ⟨IHrest.1, heapPres_trans SpecHead.2.1 IHrest.2.1, ?_⟩
    intro a0 ha0 k va hmem hk
    rcases List.mem_cons.mp ha0 with rfl | htail
    · exact IHrest.2.1.1 va (SpecHead.2.2 k va hmem hk)
    · exact IHrest.2.2 a0 htail k va
        (SpecHead.2.1.2 a0 k (HVal.ref va) hk hmem) hk

/-- Frame effect of `hMerge`: for every fragment in a successful merge, any
entry (under a key other than `_merge_strategy` itself) whose value is a
reference to a dictionary cell has the `_merge_strategy` key removed from
that cell in the final heap — the pop mutates the caller's dictionary in
place. -/
lemma hMerge_pops_inputs (fuel : Nat) (h : Heap) (frags : List Nat)
    (h' : Heap) (res : HEntries) (heq : hMerge fuel h frags = .ok (h', res)) :
    ∀ a ∈ frags, ∀ k va, (k, HVal.ref va) ∈ readH h a →
      k ≠ mergeStrategyKey → hasKey (readH h' va) mergeStrategyKey = false :=
  fun a ha k va hmem hk =>
    (hMergeFrags_spec fuel h [] frags h' res heq rfl).2.2 a ha k va hmem hk

/-!
Claim theorems.
-/

/-- C1 counterexample: a single fragment whose dictionary value carries a
`_merge_strategy` directive two levels down is installed verbatim; the
directive key survives in the merged output, refuting the claim that
`merge(F)` contains no `_merge_strategy` key at any nesting depth. -/
theorem c1_counterexample :
    mergeArgs 9
      [.dict [("x", .dict [("y",
        .dict [("_merge_strategy", .str "replace"), ("c", .int 3)])])]] =
      .ok [("x", .dict [("y",
        .dict [("_merge_strategy", .str "replace"), ("c", .int 3)])])] ∧
    containsMSE [("x", .dict [("y",
      .dict [("_merge_strategy", .str "replace"), ("c", .int 3)])])] =
      true := by
  constructor
  · rfl
  · simp [containsMSE, mergeStrategyKey]

/-- C1 (amended): the merge engine strips `_merge_strategy` from the top
level of its result and from the top level of every dictionary value directly
below it; directives nested deeper survive unless a deep merge reaches that
level. -/
theorem c1_merge_strips_top_levels (fuel : Nat) (frags : List Val)
    (out : List (String × Val)) (h : mergeArgs fuel frags = .ok out) :
    strippedTop out = true :=
  mergeArgs_stripped fuel frags out h

/-- C1 witness. -/
theorem c1_witness :
    strippedTop [("x", .dict [("a", .int 1), ("b", .int 2)])] = true :=
  c1_merge_strips_top_levels 9
    [.dict [("x", .dict [("a", .int 1)])],
     .dict [("x", .dict [("_merge_strategy", .str "deep_merge"),
       ("b", .int 2)])]]
    [("x", .dict [("a", .int 1), ("b", .int 2)])] rfl

/-- C4: merging two same-keyed nested mappings whose higher-priority side
carries a `_merge_strategy` value equal (as Python `==`) to none of the three
valid strategies fails with the invalid-merge-strategy error, which carries
the offending value and the list of valid strategies; no default strategy is
applied. -/
theorem c4_invalid_merge_strategy (fuel : Nat) (k : String)
    (da db : List (String × Val)) (strat : Val)
    (hk : k ≠ mergeStrategyKey)
    (hs : lookupKey? db mergeStrategyKey = some strat)
    (h1 : isStrVal strat "deep_merge" = false)
    (h2 : isStrVal strat "replace" = false)
    (h3 : isStrVal strat "remove" = false) :
    mergeArgs (fuel + 1) [.dict [(k, .dict da)], .dict [(k, .dict db)]] =
      .error (.invalidMergeStrategy strat VALID_MERGE_STRATEGIES) :=
  mergeArgs_invalid_strategy fuel k da db strat hk hs h1 h2 h3

/-- C4 witness. -/
theorem c4_witness :
    mergeArgs 9 [.dict [("x", .dict [("a", .int 1)])],
      .dict [("x", .dict [("_merge_strategy", .str "overwrite"),
        ("b", .int 2)])]] =
      .error (.invalidMergeStrategy (.str "overwrite")
        VALID_MERGE_STRATEGIES) :=
  c4_invalid_merge_strategy 8 "x" [("a", .int 1)]
    [("_merge_strategy", .str "overwrite"), ("b", .int 2)]
    (.str "overwrite") (by simp [mergeStrategyKey]) rfl rfl rfl rfl

/-- C8: converting a nested attribute container to a plain mapping fails with
the reserved-key error exactly when a reserved key (`items` or `keys`) occurs
at some level the recursion reaches, and otherwise recursively unwraps every
nested container. -/
theorem c8_to_dict_reserved_and_unwrap (m : List (String × Val)) :
    (hasReservedE m = true → toDictE m = .error .reservedKey) ∧
    (hasReservedE m = false → toDictE m = .ok (unwrapE m)) :=
  toDictE_spec m

/-- C8 witness. -/
theorem c8_witness :
    toDictE [("a", .attr [("items", .int 1)])] = .error .reservedKey ∧
    toDictE [("a", .attr [("b", .int 2)]), ("c", .str "s")] =
      .ok [("a", .dict [("b", .int 2)]), ("c", .str "s")] :=
  ⟨(c8_to_dict_reserved_and_unwrap [("a", .attr [("items", .int 1)])]).1
     (by simp [hasReservedE]),
   by
     have h := (c8_to_dict_reserved_and_unwrap
       [("a", .attr [("b", .int 2)]), ("c", .str "s")]).2
       (by simp [hasReservedE])
     simpa [unwrapE] using h⟩

/-- An override that contributes nothing and registers no hooks. -/
def noOpOverride : Override := ⟨0, fun _ => .dict [], fun d => d, .pyNone, []⟩

/-- A plain example route with no method overrides, no bound scenario and no
scenario groups. -/
def egRoute : RouteModel :=
  ⟨"http://api", "/pong", noOpOverride, [], none, none, [], none, none⟩

/-- C6: after hooks accumulated under the three scopes execute route scope
first, then method scope, then scenario scope, each scope's list in stored
order; and the hook state left by a previous request has no effect on
composition, which starts by clearing it. -/
theorem c6_after_hooks_order_and_reset (r : RouteModel) (fuel : Nat)
    (prev prev' : AfterHooks) (method : String)
    (kwargs : List (String × Val)) :
    getRequestArgs fuel r prev method kwargs =
      getRequestArgs fuel r prev' method kwargs ∧
    (∀ (ah : AfterHooks) (rh mh sh : List Hook),
      lookupKey? ah "route" = some rh →
      lookupKey? ah "method" = some mh →
      lookupKey? ah "scenario" = some sh →
      executeAfterHooks ah = rh ++ mh ++ sh) := by
  refine ⟨rfl, ?_⟩
  intro ah rh mh sh h1 h2 h3
  simp [executeAfterHooks, h1, h2, h3]

/-- C6 witness: hooks stored in scrambled scope order still execute
route-method-scenario, and a stale hook map from the previous request does
not change composition. -/
theorem c6_witness :
    getRequestArgs 3 egRoute [("route", [⟨7, true⟩])] "get" [] =
      getRequestArgs 3 egRoute [] "get" [] ∧
    executeAfterHooks
      [("method", [⟨2, true⟩]), ("scenario", [⟨3, true⟩]),
       ("route", [⟨1, true⟩])] =
      [⟨1, true⟩, ⟨2, true⟩, ⟨3, true⟩] :=
  ⟨(c6_after_hooks_order_and_reset egRoute 3 [("route", [⟨7, true⟩])] []
      "get" []).1,
   (c6_after_hooks_order_and_reset egRoute 3 [] [] "get" []).2
     [("method", [⟨2, true⟩]), ("scenario", [⟨3, true⟩]),
      ("route", [⟨1, true⟩])]
     [⟨1, true⟩] [⟨2, true⟩] [⟨3, true⟩] rfl rfl rfl⟩

/-- C7: an override declaring more than one parameter fails with the
too-many-arguments error before any fragment is produced; a one-parameter
override is called with a fresh empty container and the container's
resulting contents become the fragment; a zero-parameter override's return
value becomes the fragment; and the one-parameter form's return value is
ignored (changing it cannot change the engine's behaviour). -/
theorem c7_override_arity_dispatch (o : Override) (ah : AfterHooks) :
    (o.arity > 1 → invokeOverride o ah = .error (.tooManyArguments o.arity)) ∧
    (∀ ah2, o.arity = 1 → applyRegs ah o.regs = .ok ah2 →
      invokeOverride o ah = .ok (.attr (o.call1 []), ah2)) ∧
    (∀ ah2, o.arity = 0 → applyRegs ah o.regs = .ok ah2 →
      invokeOverride o ah = .ok (o.call0 (), ah2)) ∧
    (∀ v, invokeOverride ⟨o.arity, o.call0, o.call1, v, o.regs⟩ ah =
      invokeOverride o ah) := by
  refine ⟨?_, ?_, ?_, fun v => rfl⟩
  · intro hgt
    simp [invokeOverride, hgt]
  · intro ah2 h1 hregs
    simp [invokeOverride, h1, hregs]
  · intro ah2 h0 hregs
    simp [invokeOverride, h0, hregs]

/-- A zero-parameter override returning a fragment. -/
def egOverride0 : Override :=
  ⟨0, fun _ => .dict [("a", .int 1)], fun d => d, .pyNone, []⟩

/-- A one-parameter override mutating the container it receives; its return
value is a string that must be ignored. -/
def egOverride1 : Override :=
  ⟨1, fun _ => .pyNone, fun d => setKey d "p" (.int 2), .str "ignored", []⟩

/-- A two-parameter override. -/
def egOverride2 : Override := ⟨2, fun _ => .pyNone, fun d => d, .pyNone, []⟩

/-- C7 witness. -/
theorem c7_witness :
    invokeOverride egOverride2 [] = .error (.tooManyArguments 2) ∧
    invokeOverride egOverride1 [] = .ok (.attr [("p", .int 2)], []) ∧
    invokeOverride egOverride0 [] = .ok (.dict [("a", .int 1)], []) :=
  ⟨(c7_override_arity_dispatch egOverride2 []).1 (by decide),
   (c7_override_arity_dispatch egOverride1 []).2.1 [] rfl rfl,
   (c7_override_arity_dispatch egOverride0 []).2.2.1 [] rfl rfl⟩

/-- C9 counterexample: reading the unset attribute `items` does store the key
(`in` then reports it present), but the subsequent conversion to a plain
mapping fails with the reserved-key error rather than producing a mapping
that includes the key. -/
theorem c9_counterexample :
    hasKey (getattrAD [] "items").1 "items" = true ∧
    toDictE (getattrAD [] "items").1 = .error .reservedKey := by
  refine ⟨rfl, ?_⟩
  simp [getattrAD, lookupKey?, toDictE]

/-- C9 (amended): reading an unset attribute whose name is not one of the
reserved literals `items`/`keys` stores a fresh empty container under that
name: afterwards the key tests as present, and — provided the rest of the
container is convertible — conversion to a plain mapping includes the key
mapped to an empty mapping.  (For the reserved names the read still stores
the key, but conversion then fails with the reserved-key error.) -/
theorem c9_getattr_autovivifies (data : List (String × Val)) (name : String)
    (hnew : lookupKey? data name = none) (hi : name ≠ "items")
    (hk : name ≠ "keys") (hres : hasReservedE data = false) :
    (getattrAD data name).2 = .attr [] ∧
    hasKey (getattrAD data name).1 name = true ∧
    toDictE (getattrAD data name).1 =
      .ok (unwrapE data ++ [(name, .dict [])]) := by
  have hga : getattrAD data name = (data ++ [(name, .attr [])], .attr []) := by
    simp [getattrAD, hnew]
  rw [hga]
  refine ⟨rfl, ?_, ?_⟩
  · rw [hasKey, lookupKey?_append, hnew]
    simp [lookupKey?]
  · have hres2 : hasReservedE (data ++ [(name, .attr [])]) = false := by
      rw [hasReservedE_append, hres]
      simp [hasReservedE, hi, hk]
    have hok := (toDictE_spec (data ++ [(name, .attr [])])).2 hres2
    rw [hok, unwrapE_append]
    simp [unwrapE]

/-- C9 witness. -/
theorem c9_witness :
    (getattrAD [("a", .int 1)] "b").2 = .attr [] ∧
    hasKey (getattrAD [("a", .int 1)] "b").1 "b" = true ∧
    toDictE (getattrAD [("a", .int 1)] "b").1 =
      .ok [("a", .int 1), ("b", .dict [])] := by
  have h := c9_getattr_autovivifies [("a", .int 1)] "b"
    (by simp [lookupKey?]) (by simp) (by simp) (by simp [hasReservedE])
  simpa [unwrapE] using h

/-- The common allow-list exactly as the specification words it in §6
("common to all verbs — url, headers, cookies, auth, timeout,
allow_redirects/follow_redirects, proxies, verify, stream, cert,
extensions").  Written down only to compare the claim's list with the
source's `ALLOWED_COMMON_PARAMS`. -/
def SPEC_ALLOWED_COMMON : List String :=
  ["url", "headers", "cookies", "auth", "timeout", "allow_redirects",
   "follow_redirects", "proxies", "verify", "stream", "cert", "extensions"]

/-- C2 counterexample: a GET descriptor whose keys all lie in the claim's
allow-list (`url` and `extensions`) is rejected by the code's validation,
which names `extensions` among the offending keys — the code's allow-list
(`constants.ALLOWED_COMMON_PARAMS`) has no `extensions`, `follow_redirects`
or `content`. -/
theorem c2_counterexample :
    (["url", "extensions"].all
      (fun k => (SPEC_ALLOWED_COMMON ++ ["params"]).contains k) = true) ∧
    validateRequestArgs "get"
      [("url", .str "u"), ("extensions", .dict [])] =
      .error (.invalidRequestArguments ["extensions"] "get") := by
  constructor
  · rfl
  · rfl

/-- C2 (amended): validation checks the merged descriptor's keys against
`ALLOWED_COMMON_PARAMS` = \x7burl, headers, cookies, auth, timeout,
allow_redirects, proxies, verify, stream, cert\x7d plus the verb's entry in
`ALLOWED_METHOD_PARAMS` (GET/HEAD/OPTIONS: params; POST/PUT/PATCH: data,
json, files; DELETE: none): a descriptor whose keys all lie in that set
passes, any other fails with the invalid-request-arguments error naming the
offending keys and the verb; and a composition failure yields an empty
trace, so the transport is never invoked. -/
theorem c2_validation_allow_list :
    (∀ (method : String) (mparams : List String)
       (args : List (String × Val)),
       lookupKey? ALLOWED_METHOD_PARAMS (strUpper method) = some mparams →
       (((args.map Prod.fst).all
           (fun k => (ALLOWED_COMMON_PARAMS ++ mparams).contains k) = true →
         validateRequestArgs method args = .ok ()) ∧
        ((args.map Prod.fst).all
           (fun k => (ALLOWED_COMMON_PARAMS ++ mparams).contains k) =
             false →
         validateRequestArgs method args =
           .error (.invalidRequestArguments
             ((args.map Prod.fst).filter
               (fun k => !((ALLOWED_COMMON_PARAMS ++ mparams).contains k)))
             method)))) ∧
    (∀ (fuel : Nat) (r : RouteModel) (prev : AfterHooks) (method : String)
       (kwargs : List (String × Val)) (e : Err),
       getParsedRequestArgs fuel r prev method kwargs = .error e →
       runRequest fuel r prev method kwargs = (.error e, [])) := by
  constructor
  · intro method mparams args hlook
    constructor
    · intro hall
      unfold validateRequestArgs
      rw [hlook]
      show (if ((args.map Prod.fst).all
            (fun k => (ALLOWED_COMMON_PARAMS ++ mparams).contains k)) = true
          then (Except.ok () : Except Err Unit)
          else Except.error (Err.invalidRequestArguments
            ((args.map Prod.fst).filter
              (fun k => !((ALLOWED_COMMON_PARAMS ++ mparams).contains k)))
            method)) = Except.ok ()
      rw [hall]
      simp
    · intro hall
      unfold validateRequestArgs
      rw [hlook]
      show (if ((args.map Prod.fst).all
            (fun k => (ALLOWED_COMMON_PARAMS ++ mparams).contains k)) = true
          then (Except.ok () : Except Err Unit)
          else Except.error (Err.invalidRequestArguments
            ((args.map Prod.fst).filter
              (fun k => !((ALLOWED_COMMON_PARAMS ++ mparams).contains k)))
            method)) =
        Except.error (Err.invalidRequestArguments
          ((args.map Prod.fst).filter
            (fun k => !((ALLOWED_COMMON_PARAMS ++ mparams).contains k)))
          method)
      rw [hall]
      simp
  · intro fuel r prev method kwargs e h
    simp [runRequest, h]

/-- A route whose route-level override contributes a key outside every
allow-list. -/
def egRouteBadKey : RouteModel :=
  ⟨"http://api", "/x",
   ⟨0, fun _ => .dict [("url", .str "u"), ("zzz", .int 1)], fun d => d,
    .pyNone, []⟩,
   [], none, none, [], none, none⟩

/-- C2 witness. -/
theorem c2_witness :
    validateRequestArgs "get" [("url", .str "u"), ("params", .dict [])] =
      .ok () ∧
    validateRequestArgs "get" [("url", .str "u"), ("zzz", .int 1)] =
      .error (.invalidRequestArguments ["zzz"] "get") ∧
    runRequest 9 egRouteBadKey [] "get" [] =
      (.error (.invalidRequestArguments ["zzz"] "get"), []) :=
  ⟨(c2_validation_allow_list.1 "get" ["params"]
      [("url", .str "u"), ("params", .dict [])] rfl).1 rfl,
   (c2_validation_allow_list.1 "get" ["params"]
      [("url", .str "u"), ("zzz", .int 1)] rfl).2 rfl,
   c2_validation_allow_list.2 9 egRouteBadKey [] "get" []
     (.invalidRequestArguments ["zzz"] "get") rfl⟩

/-- C3: with a route-level override yielding `params = \x7bid: 1\x7d`, a
GET-level override yielding `params = \x7bname: "x"\x7d`, a bound scenario
yielding `params = \x7bname: "y"\x7d` and call-time keyword arguments
`params = \x7bextra: "z"\x7d`, composing a GET request merges the fragments
in the order route, method, scenario, call-site and produces final params
exactly `\x7bid: 1, name: "y", extra: "z"\x7d`. -/
theorem c3_end_to_end_get_params (r : RouteModel) (prev : AfterHooks)
    (mo so : Override)
    (hr : ∀ ah, invokeOverride r.routeOverride ah =
      .ok (.dict [("params", .dict [("id", .int 1)])], ah))
    (hm : lookupKey? r.methodOverrides "get" = some mo)
    (hmo : ∀ ah, invokeOverride mo ah =
      .ok (.dict [("params", .dict [("name", .str "x")])], ah))
    (hs : r.scenarioMethod = some so)
    (hso : ∀ ah, invokeOverride so ah =
      .ok (.dict [("params", .dict [("name", .str "y")])], ah)) :
    getRequestArgs 9 r prev "get"
      [("params", .dict [("extra", .str "z")])] =
      .ok ([("params", .dict [("id", .int 1), ("name", .str "y"),
        ("extra", .str "z")])], []) := by
  simp only [getRequestArgs, hr, hm, hmo, hs, hso]
  rfl

/-- The route of the end-to-end GET example, with the scenario bound. -/
def egRouteC3 : RouteModel :=
  ⟨"http://api", "/pong",
   ⟨0, fun _ => .dict [("params", .dict [("id", .int 1)])], fun d => d,
    .pyNone, []⟩,
   [("get",
     ⟨0, fun _ => .dict [("params", .dict [("name", .str "x")])], fun d => d,
      .pyNone, []⟩)],
   some ⟨0, fun _ => .dict [("params", .dict [("name", .str "y")])],
     fun d => d, .pyNone, []⟩,
   none, [], none, some "pong"⟩

/-- C3 witness. -/
theorem c3_witness :
    getRequestArgs 9 egRouteC3 [] "get"
      [("params", .dict [("extra", .str "z")])] =
      .ok ([("params", .dict [("id", .int 1), ("name", .str "y"),
        ("extra", .str "z")])], []) :=
  c3_end_to_end_get_params egRouteC3 []
    ⟨0, fun _ => .dict [("params", .dict [("name", .str "x")])], fun d => d,
     .pyNone, []⟩
    ⟨0, fun _ => .dict [("params", .dict [("name", .str "y")])], fun d => d,
     .pyNone, []⟩
    (fun _ => rfl) rfl (fun _ => rfl) rfl (fun _ => rfl)

/-- A route whose scenario-groups mapping holds a falsy entry under `g`. -/
def egRouteFalsyGroup : RouteModel :=
  ⟨"http://api", "/x", noOpOverride, [], none,
   some [("g", .falsyEntry)], [], none, none⟩

/-- C5 counterexample: a non-type entry (`None`) in the scenario-groups
mapping does not fail with the invalid-group-type error; the falsy lookup
result is reported as an unknown group instead (`_get_scenario_group` tests
`if not scenario_group` before `isinstance(scenario_group, type)`). -/
theorem c5_counterexample :
    forScenario egRouteFalsyGroup "s" (some "g") =
      .error (.unknownScenarioGroup "g") := rfl

/-- C5 (amended): resolving with a truthy group name when `scenario_groups`
is missing or empty fails with the no-scenario-groups error; an absent
group key — or a falsy entry such as `None` — fails as an unknown group; a
truthy non-class entry fails as an invalid group type; an unresolved or
non-callable scenario name (through a group or on the route itself) fails
as scenario-not-found; and any resolution failure aborts before the request
pipeline produces any event (no hook runs, no transport call happens). -/
theorem c5_scenario_resolution_errors (r : RouteModel) (name g : String) :
    ((r.scenarioGroups = none ∨ r.scenarioGroups = some []) → g ≠ "" →
      forScenario r name (some g) = .error .noScenarioGroupsConfigured) ∧
    (∀ gs, r.scenarioGroups = some gs → gs ≠ [] → g ≠ "" →
      lookupKey? gs g = none →
      forScenario r name (some g) = .error (.unknownScenarioGroup g)) ∧
    (∀ gs, r.scenarioGroups = some gs → gs ≠ [] → g ≠ "" →
      lookupKey? gs g = some .falsyEntry →
      forScenario r name (some g) = .error (.unknownScenarioGroup g)) ∧
    (∀ gs, r.scenarioGroups = some gs → gs ≠ [] → g ≠ "" →
      lookupKey? gs g = some .truthyNonType →
      forScenario r name (some g) = .error (.invalidScenarioGroupType g)) ∧
    (∀ gs scens, r.scenarioGroups = some gs → gs ≠ [] → g ≠ "" →
      lookupKey? gs g = some (.groupClass scens) →
      (lookupKey? scens name = none ∨
       lookupKey? scens name = some .nonCallable) →
      forScenario r name (some g) = .error (.scenarioNotFound name)) ∧
    ((lookupKey? r.routeScenarios name = none ∨
      lookupKey? r.routeScenarios name = some .nonCallable) →
      forScenario r name none = .error (.scenarioNotFound name)) ∧
    (∀ (fuel : Nat) (prev : AfterHooks) (gopt : Option String)
       (method : String) (kwargs : List (String × Val)) (e : Err),
      forScenario r name gopt = .error e →
      forScenarioThenRequest fuel r prev name gopt method kwargs =
        (.error e, [])) := by
  refine ⟨?_, ?_, ?_, ?_, ?_, ?_, ?_⟩
  · intro hgs hg
    rcases hgs with h | h
    · simp [forScenario, getScenarioGroup, h, hg]
    · simp [forScenario, getScenarioGroup, h, hg]
  · intro gs hgs hne hg hlook
    have hemp : gs.isEmpty = false := by
      cases gs with
      | nil => exact absurd rfl hne
      | cons a t => rfl
    simp [forScenario, getScenarioGroup, hgs, hne, hg, hemp, hlook]
  · intro gs hgs hne hg hlook
    have hemp : gs.isEmpty = false := by
      cases gs with
      | nil => exact absurd rfl hne
      | cons a t => rfl
    simp [forScenario, getScenarioGroup, hgs, hne, hg, hemp, hlook]
  · intro gs hgs hne hg hlook
    have hemp : gs.isEmpty = false := by
      cases gs with
      | nil => exact absurd rfl hne
      | cons a t => rfl
    simp [forScenario, getScenarioGroup, hgs, hne, hg, hemp, hlook]
  · intro gs scens hgs hne hg hlook hsc
    have hemp : gs.isEmpty = false := by
      cases gs with
      | nil => exact absurd rfl hne
      | cons a t => rfl
    rcases hsc with h | h
    · simp [forScenario, getScenarioGroup, hgs, hne, hg, hemp, hlook, h]
    · simp [forScenario, getScenarioGroup, hgs, hne, hg, hemp, hlook, h]
  · intro hsc
    rcases hsc with h | h
    · simp [forScenario, h]
    · simp [forScenario, h]
  · intro fuel prev gopt method kwargs e h
    simp [forScenarioThenRequest, h]

/-- A route with a scenario group class exposing only a non-callable
scenario attribute, a truthy non-class group entry, and a non-callable
route-level attribute. -/
def egRouteGroups : RouteModel :=
  ⟨"http://api", "/x", noOpOverride, [], none,
   some [("g", .groupClass [("s", .nonCallable)]), ("t", .truthyNonType)],
   [("rs", .nonCallable)], none, none⟩

/-- C5 witness. -/
theorem c5_witness :
    forScenario egRoute "s" (some "g") =
      .error .noScenarioGroupsConfigured ∧
    forScenario egRouteGroups "s" (some "zz") =
      .error (.unknownScenarioGroup "zz") ∧
    forScenario egRouteGroups "s" (some "t") =
      .error (.invalidScenarioGroupType "t") ∧
    forScenario egRouteGroups "s" (some "g") =
      .error (.scenarioNotFound "s") ∧
    forScenario egRouteGroups "nope" none =
      .error (.scenarioNotFound "nope") ∧
    forScenarioThenRequest 5 egRouteFalsyGroup [] "s" (some "g") "get" [] =
      (.error (.unknownScenarioGroup "g"), []) :=
  ⟨(c5_scenario_resolution_errors egRoute "s" "g").1 (Or.inl rfl)
     (by decide),
   (c5_scenario_resolution_errors egRouteGroups "s" "zz").2.1 _ rfl
     (by simp [egRouteGroups]) (by decide) rfl,
   (c5_scenario_resolution_errors egRouteGroups "s" "t").2.2.2.1 _ rfl
     (by simp [egRouteGroups]) (by decide) rfl,
   (c5_scenario_resolution_errors egRouteGroups "s" "g").2.2.2.2.1 _
     [("s", .nonCallable)] rfl (by simp [egRouteGroups]) (by decide) rfl
     (Or.inr rfl),
   (c5_scenario_resolution_errors egRouteGroups "nope" "g").2.2.2.2.2.1
     (Or.inl rfl),
   (c5_scenario_resolution_errors egRouteFalsyGroup "s" "g").2.2.2.2.2.2
     5 [] (some "g") "get" [] (.unknownScenarioGroup "g") rfl⟩

/-- The heap of the aliasing example: fragment 0 is
`\x7bx: d\x7d` where `d` (cell 1) is `\x7b_merge_strategy: "bogus",
a: 1\x7d`. -/
def aliasHeap : Heap :=
  ⟨[[("x", .ref 1)], [(mergeStrategyKey, .str "bogus"), ("a", .int 1)]]⟩

/-- C10 counterexample: in the fragment `\x7b_merge_strategy: d\x7d` the
entry's key is the directive key itself; the loop skips it without popping,
so the dictionary `d` keeps its own top-level `_merge_strategy` key —
refuting the claim for entries stored under the literal key
`_merge_strategy`. -/
theorem c10_counterexample :
    hMerge 5
      (⟨[[(mergeStrategyKey, .ref 1)],
         [(mergeStrategyKey, .str "replace")]]⟩ : Heap) [0] =
      .ok (⟨[[(mergeStrategyKey, .ref 1)],
        [(mergeStrategyKey, .str "replace")]]⟩, []) ∧
    hasKey (readH (⟨[[(mergeStrategyKey, .ref 1)],
      [(mergeStrategyKey, .str "replace")]]⟩ : Heap) 1)
      mergeStrategyKey = true :=
  ⟨rfl, rfl⟩

/-- C10 (amended): the merge mutates its plain-dictionary input fragments —
after a successful merge, the dictionary behind every reference-valued entry
stored under a key other than the literal `_merge_strategy` has had its
top-level `_merge_strategy` key popped in place; and the merged output can
alias input sub-dictionaries rather than copies (the concrete run installs
the input's cell address 1 in the output while having stripped that cell's
directive in the shared heap). -/
theorem c10_merge_pops_input_fragments :
    (∀ (fuel : Nat) (h : Heap) (frags : List Nat) (h' : Heap)
       (res : HEntries), hMerge fuel h frags = .ok (h', res) →
      ∀ a ∈ frags, ∀ k va, (k, HVal.ref va) ∈ readH h a →
        k ≠ mergeStrategyKey →
        hasKey (readH h' va) mergeStrategyKey = false) ∧
    hMerge 9 aliasHeap [0] =
      .ok (⟨[[("x", .ref 1)], [("a", .int 1)]]⟩, [("x", .ref 1)]) := by
  constructor
  · intro fuel h frags h' res heq a ha k va hmem hk
    exact hMerge_pops_inputs fuel h frags h' res heq a ha k va hmem hk
  · rfl

/-- C10 witness. -/
theorem c10_witness :
    hasKey (readH (⟨[[("x", .ref 1)], [("a", .int 1)]]⟩ : Heap) 1)
      mergeStrategyKey = false :=
  c10_merge_pops_input_fragments.1 9 aliasHeap [0]
    ⟨[[("x", .ref 1)], [("a", .int 1)]]⟩ [("x", .ref 1)] rfl
    0 (by simp) "x" 1
    (List.mem_singleton.mpr rfl)
    (by decide)

end BeaverRoutes
